import Mathlib

/-!
A shallow embedding of the core of the `contract-collector` repository
(orchestration + storage/identity subsystem) and proofs about it.

Conventions of the embedding:
* Python dicts of string keys / string values (the `extracted` payload as
  produced by the adapters in `src/collector/adapters/`) are modelled as
  association lists `List (String × String)` in insertion order.
* `hashlib.sha256(str(data).encode()).hexdigest()` applied to a sorted list of
  items, and to a formatted key string, are external library calls; they are
  modelled as an explicit `digest` function parameter.  Theorems that need
  collision-freeness take `Function.Injective digest` as a hypothesis, which is
  the standing assumption the design places on its 256-bit cryptographic hash.
* `datetime` timestamps are modelled as abstract `Nat` instants.
* MongoDB collections are modelled as association lists keyed by the natural
  key; the unique indexes created in `MongoStore._ensure_indexes` make the
  keyed-map view faithful (one document per natural key).
-/

namespace Collector

/-! ## Identity model (`src/collector/core/schemas.py`) -/

/-- The order Python's `sorted` uses on `dict.items()` tuples of strings:
lexicographic on the pair (compare keys, then values). -/
def itemLe (a b : String × String) : Prop :=
  a.1 < b.1 ∨ (a.1 = b.1 ∧ a.2 ≤ b.2)

instance : DecidableRel itemLe := fun a b => by
  unfold itemLe; infer_instance

instance : IsTotal (String × String) itemLe where
  total a b := by
    rcases lt_trichotomy a.1 b.1 with h | h | h
    · exact Or.inl (Or.inl h)
    · rcases le_total a.2 b.2 with h2 | h2
      · exact Or.inl (Or.inr ⟨h, h2⟩)
      · exact Or.inr (Or.inr ⟨h.symm, h2⟩)
    · exact Or.inr (Or.inl h)

instance : IsTrans (String × String) itemLe where
  trans a b c hab hbc := by
    rcases hab with h1 | ⟨h1, h1v⟩ <;> rcases hbc with h2 | ⟨h2, h2v⟩
    · exact Or.inl (lt_trans h1 h2)
    · exact Or.inl (h2 ▸ h1)
    · exact Or.inl (h1 ▸ h2)
    · exact Or.inr ⟨h1.trans h2, le_trans h1v h2v⟩

instance : IsAntisymm (String × String) itemLe where
  antisymm a b hab hba := by
    rcases hab with h1 | ⟨h1, h1v⟩ <;> rcases hba with h2 | ⟨h2, h2v⟩
    · exact absurd h2 (lt_asymm h1)
    · exact absurd h1 (h2 ▸ lt_irrefl _)
    · exact absurd h2 (h1 ▸ lt_irrefl _)
    · exact Prod.ext h1 (le_antisymm h1v h2v)

/-- `sorted(self.extracted.items())`: Python's sort of the dict items.  Python
sorts tuples lexicographically; any correct sort yields the same result since
`itemLe` is a linear order, so we use insertion sort. -/
def pySortItems (l : List (String × String)) : List (String × String) :=
  l.insertionSort itemLe

/-- Python `d[k] = v` on a dict that already holds key `k`: the value stored
under `k` is replaced in place (insertion position preserved). -/
def dictSet (l : List (String × String)) (k v : String) : List (String × String) :=
  l.map fun p => if p.1 = k then (k, v) else p

/-- `RawRecord` (`schemas.py`).  `fetched_at` is an abstract instant;
`raw_html` is carried but unused by the core logic. -/
structure RawRecord where
  source_id : String
  source_name : String
  source_url : String
  fetched_at : Nat := 0
  raw_html : Option String := none
  extracted : List (String × String) := []
  content_hash : String := ""
deriving DecidableEq, Repr

/-- The `model_validator(mode="after")` `RawRecord.compute_content_hash`:
derive the SHA-256 content hash from the extracted data if not already set
(`if not self.content_hash` — the empty string is the only falsy `str`).
`digest` stands for `data ↦ sha256(str(data).encode()).hexdigest()`. -/
def RawRecord.compute_content_hash (digest : List (String × String) → String)
    (r : RawRecord) : RawRecord :=
  if r.content_hash = "" then
    { r with content_hash := digest (pySortItems r.extracted) }
  else r

/-- Constructing a `RawRecord(...)` in Python runs the validator; adapters
always construct with `content_hash` left at its default `""`. -/
def mkRawRecord (digest : List (String × String) → String)
    (source_id source_name source_url : String) (fetched_at : Nat)
    (extracted : List (String × String)) : RawRecord :=
  RawRecord.compute_content_hash digest
    { source_id := source_id, source_name := source_name,
      source_url := source_url, fetched_at := fetched_at,
      extracted := extracted, content_hash := "" }

/-- `OpportunityStatus` enum. -/
inductive OpportunityStatus where
  | open_ | closed | awarded | cancelled | unknown
deriving DecidableEq, Repr

/-- `OpportunityCategory` enum. -/
inductive OpportunityCategory where
  | construction | it_services | professional_services | supplies
  | consulting | healthcare | transportation | maintenance | other
deriving DecidableEq, Repr

/-- `CanonicalRecord` (`schemas.py`).  `estimated_value` and
`category_confidence` are Python floats, carried as `ℚ`; dates are abstract
`Nat` instants. -/
structure CanonicalRecord where
  record_id : String
  source_name : String
  source_id : String
  source_url : String
  title : String
  description : String := ""
  agency : String := ""
  posted_date : Option Nat := none
  due_date : Option Nat := none
  award_date : Option Nat := none
  estimated_value : Option ℚ := none
  currency : String := "USD"
  status : OpportunityStatus := OpportunityStatus.unknown
  category : OpportunityCategory := OpportunityCategory.other
  category_confidence : ℚ := 0
  vendor_name : Option String := none
  vendor_normalized : Option String := none
  contact_info : String := ""
  location : String := ""
  tags : List String := []
  content_hash : String := ""
  version : Nat := 1
  created_at : Nat := 0
  updated_at : Nat := 0
deriving DecidableEq, Repr

/-- The `model_validator(mode="after")` `CanonicalRecord.compute_record_id`:
derive the deterministic record ID from `f"{source_name}:{source_id}"` if not
already set.  `digestS` stands for `s ↦ sha256(s.encode()).hexdigest()`. -/
def CanonicalRecord.compute_record_id (digestS : String → String)
    (r : CanonicalRecord) : CanonicalRecord :=
  if r.record_id = "" then
    { r with record_id := digestS (r.source_name ++ ":" ++ r.source_id) }
  else r

/-! ## Record store (`src/collector/storage/mongo.py`)

Collections are keyed maps: the unique index on `(source_name, source_id)`
for raw records and on `record_id` for canonical records guarantees one
document per key, so a collection is an association list with distinct keys. -/

/-- `find_one` by exact key. -/
def lookupKey {κ ν : Type} [DecidableEq κ] (s : List (κ × ν)) (k : κ) : Option ν :=
  match s.find? (fun p => decide (p.1 = k)) with
  | some p => some p.2
  | none => none

/-- `update_one(filt, {"$set": doc}, upsert=True)` on a keyed collection:
replace the document under `k`, inserting it if absent. -/
def setKey {κ ν : Type} [DecidableEq κ] (s : List (κ × ν)) (k : κ) (v : ν) :
    List (κ × ν) :=
  (k, v) :: s.filter fun p => decide ¬(p.1 = k)

/-- The two collections managed by `MongoStore`. -/
structure MongoStore where
  raw : List ((String × String) × RawRecord) := []
  canonical : List (String × CanonicalRecord) := []
deriving DecidableEq, Repr

/-- Natural key of a raw record. -/
def RawRecord.key (r : RawRecord) : String × String :=
  (r.source_name, r.source_id)

/-- `MongoStore.upsert_raw`: look up by `(source_name, source_id)`; if a
document exists with the same `content_hash`, skip (return `False`);
otherwise `$set`-upsert the full dump and return `True`. -/
def MongoStore.upsert_raw (st : MongoStore) (record : RawRecord) :
    Bool × MongoStore :=
  let filt := (record.source_name, record.source_id)
  match lookupKey st.raw filt with
  | some existing =>
    if existing.content_hash = record.content_hash then
      (false, st)
    else
      (true, { st with raw := setKey st.raw filt record })
  | none => (true, { st with raw := setKey st.raw filt record })

/-- `MongoStore.upsert_canonical`: look up by `record_id`; if a document
exists with the same `content_hash`, skip (return `False`); otherwise store
the dump with `version = existing.version + 1` (or `1` if absent) and
`updated_at = datetime.utcnow()` (the `now` argument), returning `True`. -/
def MongoStore.upsert_canonical (st : MongoStore) (record : CanonicalRecord)
    (now : Nat) : Bool × MongoStore :=
  let filt := record.record_id
  match lookupKey st.canonical filt with
  | some existing =>
    if existing.content_hash = record.content_hash then
      (false, st)
    else
      let doc := { record with version := existing.version + 1, updated_at := now }
      (true, { st with canonical := setKey st.canonical filt doc })
  | none =>
    let doc := { record with version := 1, updated_at := now }
    (true, { st with canonical := setKey st.canonical filt doc })

/-! ## Source adapters (`src/collector/adapters/`)

The HTTP pagination of both adapters is abstracted into a single feed list:
the concatenated stream of API items the paged requests return.  The per-item
loop body (checkpoint test, skip rule, `RawRecord` construction) is modelled
line by line. -/

/-- `if self.checkpoint and source_id == self.checkpoint`: Python truthiness
means `None` and the empty string both disable the checkpoint test. -/
def checkpointHit (checkpoint : Option String) (source_id : String) : Bool :=
  match checkpoint with
  | none => false
  | some c => decide ¬(c = "") && decide (source_id = c)

/-- One opportunity object from the SAM.gov API response, restricted to the
fields `SamGovAdapter.extract` reads (`opp.get(...)` defaults applied). -/
structure SamOpp where
  noticeId : String := ""
  uiLink : Option String := none
  title : String := ""
  department : String := ""
  subTier : String := ""
  office : String := ""
  postedDate : String := ""
  responseDeadLine : String := ""
  oppType : String := ""
  typeOfSetAsideDescription : String := ""
  naicsCode : String := ""
  solicitationNumber : String := ""
deriving DecidableEq, Repr

/-- The `RawRecord(...)` yielded by `SamGovAdapter.extract` for one item. -/
def samRecord (digest : List (String × String) → String) (fetched_at : Nat)
    (opp : SamOpp) : RawRecord :=
  mkRawRecord digest opp.noticeId "sam_gov"
    (opp.uiLink.getD ("https://sam.gov/opp/" ++ opp.noticeId ++ "/view"))
    fetched_at
    [("title", opp.title), ("agency", opp.department), ("sub_tier", opp.subTier),
     ("office", opp.office), ("posted_date", opp.postedDate),
     ("response_deadline", opp.responseDeadLine), ("type", opp.oppType),
     ("set_aside", opp.typeOfSetAsideDescription), ("naics_code", opp.naicsCode),
     ("solicitation_number", opp.solicitationNumber)]

/-- `SamGovAdapter.extract` over a feed of opportunities: for each item, a hit
on the checkpoint returns from the generator (normal termination), otherwise
the record is yielded. -/
def samGovExtract (digest : List (String × String) → String) (fetched_at : Nat)
    (checkpoint : Option String) : List SamOpp → List RawRecord
  | [] => []
  | opp :: rest =>
    if checkpointHit checkpoint opp.noticeId then []
    else samRecord digest fetched_at opp :: samGovExtract digest fetched_at checkpoint rest

/-- One row from the NYC Open Data response, restricted to the fields
`NYCProcurementAdapter.extract` reads. -/
structure NycRow where
  request_id : String := ""
  pin : String := ""
  short_title : String := ""
  agency_name : String := ""
  category_description : String := ""
  type_of_notice_description : String := ""
  selection_method_description : String := ""
  due_date : String := ""
  start_date : String := ""
  contact_name : String := ""
  email : String := ""
deriving DecidableEq, Repr

/-- `row.get("request_id", "") or row.get("pin", "")`. -/
def nycSourceId (row : NycRow) : String :=
  if row.request_id = "" then row.pin else row.request_id

/-- The `RawRecord(...)` yielded by `NYCProcurementAdapter.extract`. -/
def nycRecord (digest : List (String × String) → String) (fetched_at : Nat)
    (row : NycRow) : RawRecord :=
  mkRawRecord digest (nycSourceId row) "nyc_procurement"
    ("https://data.cityofnewyork.us/resource/3khw-qi8f/" ++ nycSourceId row)
    fetched_at
    [("title", row.short_title), ("agency", row.agency_name),
     ("category", row.category_description),
     ("notice_type", row.type_of_notice_description),
     ("selection_method", row.selection_method_description),
     ("pin", row.pin), ("due_date", row.due_date),
     ("posted_date", row.start_date), ("contact_name", row.contact_name),
     ("contact_email", row.email)]

/-- `NYCProcurementAdapter.extract` over a feed of rows: rows without a
source id are skipped (`continue`); a checkpoint hit returns from the
generator; otherwise the record is yielded. -/
def nycExtract (digest : List (String × String) → String) (fetched_at : Nat)
    (checkpoint : Option String) : List NycRow → List RawRecord
  | [] => []
  | row :: rest =>
    if nycSourceId row = "" then nycExtract digest fetched_at checkpoint rest
    else if checkpointHit checkpoint (nycSourceId row) then []
    else nycRecord digest fetched_at row :: nycExtract digest fetched_at checkpoint rest

/-! ## Orchestrator (`src/collector/orchestrator.py`)

`Orchestrator.run` launches one task per adapter under
`asyncio.gather(..., return_exceptions=True)` and a shared semaphore; each
task mutates the shared `CollectorMetrics` and the store.  The embedding runs
the tasks over an explicit completion schedule (here: list order), which is
one of the admissible interleavings; the claims proved below are
schedule-insensitive counting facts. -/

/-- `CollectorMetrics`: in-memory counters for a batch run; times are
abstract `Nat` instants (`time.monotonic()`). -/
structure CollectorMetrics where
  items_collected : Nat := 0
  items_skipped : Nat := 0
  failures : Nat := 0
  start_time : Nat := 0
  end_time : Nat := 0
deriving DecidableEq, Repr

/-- `CollectorMetrics.summary()` (the `round(..., 2)` presentation of the
elapsed time is dropped; instants are already abstract). -/
structure RunSummary where
  items_collected : Nat
  items_skipped : Nat
  failures : Nat
  elapsed_s : Nat
deriving DecidableEq, Repr

/-- `CollectorMetrics.summary()`. -/
def CollectorMetrics.summary (m : CollectorMetrics) : RunSummary :=
  { items_collected := m.items_collected, items_skipped := m.items_skipped,
    failures := m.failures, elapsed_s := m.end_time - m.start_time }

/-- One step of the `async for record in adapter.extract(page)` loop body can
either deliver a record or raise (while the generator produces the item or
while `upsert_raw` persists it); an exception is carried as `Except.error`. -/
abbrev ItemStep := Except String RawRecord

deriving instance DecidableEq for Except

/-- The `EXTRACTING` loop of `Orchestrator.run_adapter`: upsert each
delivered record, counting collected/skipped; the first exception escapes the
loop (there is no per-item handler) carrying the error out to the run-level
handler.  Returns the store, both counters, and the escaped error if any. -/
def extractLoop (st : MongoStore) (collected skipped : Nat) :
    List ItemStep → MongoStore × Nat × Nat × Option String
  | [] => (st, collected, skipped, none)
  | Except.error e :: _ => (st, collected, skipped, some e)
  | Except.ok record :: rest =>
    let r := st.upsert_raw record
    if r.1 then extractLoop r.2 (collected + 1) skipped rest
    else extractLoop r.2 collected (skipped + 1) rest

/-- What one adapter task amounts to once the external world is fixed:
either some step before extraction raises (unknown adapter, checkpoint
lookup, context creation, navigation after retries, login), or extraction
runs over a stream of item steps. -/
inductive AdapterRun where
  | setupFailure (error : String)
  | extraction (items : List ItemStep)
deriving DecidableEq, Repr

/-- `Orchestrator.run_adapter`: the whole body is wrapped in
`try ... except Exception`, which logs and increments `failures`;
counter increments made before an exception survive it. -/
def runAdapter (st : MongoStore) (m : CollectorMetrics) :
    AdapterRun → MongoStore × CollectorMetrics
  | AdapterRun.setupFailure _ => (st, { m with failures := m.failures + 1 })
  | AdapterRun.extraction items =>
    let r := extractLoop st m.items_collected m.items_skipped items
    match r.2.2.2 with
    | none => (r.1, { m with items_collected := r.2.1, items_skipped := r.2.2.1 })
    | some _ =>
      (r.1, { m with items_collected := r.2.1, items_skipped := r.2.2.1,
                     failures := m.failures + 1 })

/-- `Orchestrator.run`: reset metrics, record the start instant, run every
adapter task (`gather` with `return_exceptions=True` never propagates a
task's exception and never cancels siblings), record the end instant and
return the summary. -/
def orchestratorRun (st : MongoStore) (runs : List AdapterRun) (t0 t1 : Nat) :
    MongoStore × RunSummary :=
  let init : CollectorMetrics := { start_time := t0 }
  let result := runs.foldl (fun p r => runAdapter p.1 p.2 r) (st, init)
  (result.1, { result.2 with end_time := t1 }.summary)

/-! ## Retry-enabled navigation (`Orchestrator._navigate_with_retry`)

The `tenacity` decorator `retry(stop=stop_after_attempt(max_retries),
wait=wait_exponential(multiplier=retry_backoff_base, min=1, max=30),
retry=retry_if_exception_type(Exception), reraise=True)` wraps only
`page.goto(url)`.  Attempt outcomes are a function from the attempt number
(starting at 1) to success or a raised error; floats are carried as `ℚ`. -/

/-- `wait_exponential(multiplier=base, min=1, max=30)` computed after the
`k`-th failed attempt: `max(min, min(multiplier * 2^(k-1), max))`. -/
def waitExp (base : ℚ) (k : Nat) : ℚ :=
  max 1 (min (base * 2 ^ (k - 1)) 30)

/-- The tenacity retry loop from attempt `k`: run the attempt; on failure,
stop and reraise once `maxRetries` attempts have been made, else sleep the
exponential wait and go again.  Returns the final outcome, the number of
attempts made, and the schedule of waits slept. -/
def retryGo (op : Nat → Except String Unit) (base : ℚ) (maxRetries : Nat)
    (k : Nat) : Except String Unit × Nat × List ℚ :=
  match op k with
  | Except.ok _ => (Except.ok (), 1, [])
  | Except.error e =>
    if h : maxRetries ≤ k then (Except.error e, 1, [])
    else
      let r := retryGo op base maxRetries (k + 1)
      (r.1, r.2.1 + 1, waitExp base k :: r.2.2)
termination_by maxRetries - k
decreasing_by omega

/-- `Orchestrator._navigate_with_retry`: the retry loop started at attempt 1. -/
def navigateWithRetry (op : Nat → Except String Unit) (base : ℚ)
    (maxRetries : Nat) : Except String Unit × Nat × List ℚ :=
  retryGo op base maxRetries 1

/-- The per-run world for a browser run: navigation attempt outcomes and the
extraction stream.  `login` and context creation are folded into `nav`. -/
structure NavWorld where
  nav : Nat → Except String Unit
  items : List ItemStep

/-- `Orchestrator.run_adapter` with the navigation phase explicit: navigation
goes through `_navigate_with_retry`; an error surfacing from it is caught by
the run-level handler; extraction items never pass through the retry
combinator (it wraps only `page.goto`). -/
def runAdapterNav (base : ℚ) (maxRetries : Nat) (st : MongoStore)
    (m : CollectorMetrics) (w : NavWorld) : MongoStore × CollectorMetrics :=
  match (navigateWithRetry w.nav base maxRetries).1 with
  | Except.error _ => (st, { m with failures := m.failures + 1 })
  | Except.ok _ => runAdapter st m (AdapterRun.extraction w.items)

/-! ## Interleaving semantics of `upsert_canonical` (storage race)

`MongoStore.upsert_canonical` is an independent `find_one` followed by a
separate `update_one`; each database operation is individually atomic, so a
concurrent execution of two upserts is an interleaving of these two steps per
client. -/

/-- Progress of one client through `upsert_canonical`. -/
inductive UpsertPhase where
  | ready
  | readDone (existing : Option CanonicalRecord)
  | finished (result : Bool)
deriving DecidableEq, Repr

/-- One client executing `upsert_canonical(record)` with its own
`datetime.utcnow()` instant. -/
structure UpsertClient where
  record : CanonicalRecord
  now : Nat
  phase : UpsertPhase := UpsertPhase.ready
deriving DecidableEq, Repr

/-- One atomic database interaction of `upsert_canonical`: first the
`find_one` snapshot read, then the decision and `update_one` computed from
that snapshot (not from the current state). -/
def upsertCanonicalStep (st : MongoStore) (c : UpsertClient) :
    MongoStore × UpsertClient :=
  match c.phase with
  | UpsertPhase.ready =>
    (st, { c with phase :=
      UpsertPhase.readDone (lookupKey st.canonical c.record.record_id) })
  | UpsertPhase.readDone existing =>
    match existing with
    | some e =>
      if e.content_hash = c.record.content_hash then
        (st, { c with phase := UpsertPhase.finished false })
      else
        let doc := { c.record with version := e.version + 1, updated_at := c.now }
        ({ st with canonical := setKey st.canonical c.record.record_id doc },
         { c with phase := UpsertPhase.finished true })
    | none =>
      let doc := { c.record with version := 1, updated_at := c.now }
      ({ st with canonical := setKey st.canonical c.record.record_id doc },
       { c with phase := UpsertPhase.finished true })
  | UpsertPhase.finished _ => (st, c)

/-- Run a schedule over two concurrent clients: `true` steps client `a`,
`false` steps client `b`. -/
def execSchedule (st : MongoStore) (a b : UpsertClient) :
    List Bool → MongoStore × UpsertClient × UpsertClient
  | [] => (st, a, b)
  | tick :: rest =>
    if tick then
      let r := upsertCanonicalStep st a
      execSchedule r.1 r.2 b rest
    else
      let r := upsertCanonicalStep st b
      execSchedule r.1 a r.2 rest

/-! ## Helper lemmas -/

theorem lookupKey_setKey_self {κ ν : Type} [DecidableEq κ]
    (s : List (κ × ν)) (k : κ) (v : ν) : lookupKey (setKey s k v) k = some v := by
  simp [lookupKey, setKey, List.find?]

theorem find?_filter_of_imp {α : Type} (pred q : α → Bool)
    (himp : ∀ x, pred x = true → q x = true) :
    ∀ l : List α, List.find? pred (l.filter q) = List.find? pred l
  | [] => rfl
  | x :: l => by
    by_cases hq : q x = true
    · rw [List.filter_cons_of_pos hq]
      cases hpx : pred x
      · rw [List.find?_cons_of_neg _ (by simp [hpx]),
            List.find?_cons_of_neg _ (by simp [hpx]),
            find?_filter_of_imp pred q himp l]
      · rw [List.find?_cons_of_pos _ hpx, List.find?_cons_of_pos _ hpx]
    · have hpx : ¬ pred x = true := fun hpx => hq (himp x hpx)
      rw [List.filter_cons_of_neg (by simpa using hq),
          find?_filter_of_imp pred q himp l, List.find?_cons_of_neg _ hpx]

theorem lookupKey_setKey_other {κ ν : Type} [DecidableEq κ]
    (s : List (κ × ν)) (k k' : κ) (v : ν) (h : ¬ k' = k) :
    lookupKey (setKey s k v) k' = lookupKey s k' := by
  unfold lookupKey setKey
  rw [List.find?_cons_of_neg, find?_filter_of_imp]
  · intro x hx
    simp only [decide_eq_true_eq] at hx
    simpa [hx] using h
  · simpa using fun h' => h h'.symm

theorem compute_content_hash_of_empty (digest : List (String × String) → String)
    (r : RawRecord) (h : r.content_hash = "") :
    RawRecord.compute_content_hash digest r =
      { r with content_hash := digest (pySortItems r.extracted) } := by
  simp [RawRecord.compute_content_hash, h]

theorem mkRawRecord_content_hash (digest : List (String × String) → String)
    (sid sn url : String) (t : Nat) (ext : List (String × String)) :
    (mkRawRecord digest sid sn url t ext).content_hash = digest (pySortItems ext) := by
  simp [mkRawRecord, RawRecord.compute_content_hash]

theorem mkRawRecord_key (digest : List (String × String) → String)
    (sid sn url : String) (t : Nat) (ext : List (String × String)) :
    (mkRawRecord digest sid sn url t ext).key = (sn, sid) := by
  simp [mkRawRecord, RawRecord.compute_content_hash, RawRecord.key]

theorem compute_content_hash_source_id (digest : List (String × String) → String)
    (r : RawRecord) :
    (RawRecord.compute_content_hash digest r).source_id = r.source_id := by
  unfold RawRecord.compute_content_hash
  split <;> rfl

/-- Sorting is permutation-invariant: Python's `sorted` of two permutations
of the same items coincides, because `itemLe` is a linear order. -/
theorem pySortItems_perm_eq {l₁ l₂ : List (String × String)} (h : l₁.Perm l₂) :
    pySortItems l₁ = pySortItems l₂ :=
  List.eq_of_perm_of_sorted
    ((List.perm_insertionSort itemLe l₁).trans
      (h.trans (List.perm_insertionSort itemLe l₂).symm))
    (List.sorted_insertionSort itemLe l₁)
    (List.sorted_insertionSort itemLe l₂)

theorem pySortItems_perm (l : List (String × String)) : (pySortItems l).Perm l :=
  List.perm_insertionSort itemLe l

theorem mem_dictSet {l : List (String × String)} {k old : String} (v : String)
    (h : (k, old) ∈ l) : (k, v) ∈ dictSet l k v := by
  unfold dictSet
  refine List.mem_map.mpr ⟨(k, old), h, ?_⟩
  simp

/-- In a list with duplicate-free keys, a key determines its value. -/
theorem keys_nodup_val_eq {l : List (String × String)} {k a b : String}
    (hnd : (l.map Prod.fst).Nodup) (ha : (k, a) ∈ l) (hb : (k, b) ∈ l) : a = b := by
  induction l with
  | nil => cases ha
  | cons p rest ih =>
    simp only [List.map, List.nodup_cons] at hnd
    rcases List.mem_cons.mp ha with ha0 | ha0 <;>
      rcases List.mem_cons.mp hb with hb0 | hb0
    · exact congrArg Prod.snd (ha0.trans hb0.symm)
    · refine absurd ?_ hnd.1
      have hm : k ∈ rest.map Prod.fst := List.mem_map_of_mem Prod.fst hb0
      rwa [show k = p.1 from congrArg Prod.fst ha0] at hm
    · refine absurd ?_ hnd.1
      have hm : k ∈ rest.map Prod.fst := List.mem_map_of_mem Prod.fst ha0
      rwa [show k = p.1 from congrArg Prod.fst hb0] at hm
    · exact ih hnd.2 ha0 hb0

/-- Whether an extraction step raises. -/
def itemIsError : ItemStep → Bool
  | Except.error _ => true
  | Except.ok _ => false

/-- Whether an adapter run ends in the run-level `except Exception` handler. -/
def AdapterRun.fails : AdapterRun → Bool
  | AdapterRun.setupFailure _ => true
  | AdapterRun.extraction items => items.any itemIsError

/-- Number of items a run's stream delivers before its first error. -/
def okPrefixLen (items : List ItemStep) : Nat :=
  (items.takeWhile fun x => !itemIsError x).length

/-- Items a run actually feeds through `upsert_raw`. -/
def AdapterRun.okItems : AdapterRun → Nat
  | AdapterRun.setupFailure _ => 0
  | AdapterRun.extraction items => okPrefixLen items

theorem extractLoop_append (post : List ItemStep) :
    ∀ (pre : List ItemStep) (st : MongoStore) (c k : Nat),
      extractLoop st c k (pre ++ post) =
        (match extractLoop st c k pre with
         | (st', c', k', none) => extractLoop st' c' k' post
         | (st', c', k', some e) => (st', c', k', some e))
  | [], st, c, k => rfl
  | Except.error e :: pre, st, c, k => rfl
  | Except.ok record :: pre, st, c, k => by
    simp only [List.cons_append, extractLoop]
    by_cases hr : (st.upsert_raw record).1 = true
    · simp only [hr, if_true, List.append_eq, extractLoop_append post pre]
    · simp only [Bool.not_eq_true] at hr
      simp only [hr, Bool.false_eq_true, if_false, List.append_eq,
        extractLoop_append post pre]

theorem extractLoop_error_eq_any :
    ∀ (items : List ItemStep) (st : MongoStore) (c k : Nat),
      ((extractLoop st c k items).2.2.2).isSome = items.any itemIsError
  | [], _, _, _ => rfl
  | Except.error e :: items, st, c, k => by
    simp [extractLoop, List.any, itemIsError]
  | Except.ok record :: items, st, c, k => by
    simp only [extractLoop, List.any, itemIsError, Bool.false_or]
    by_cases hr : (st.upsert_raw record).1 = true
    · simp only [hr, if_true, extractLoop_error_eq_any items]
    · simp only [Bool.not_eq_true] at hr
      simp only [hr, Bool.false_eq_true, if_false, extractLoop_error_eq_any items]

theorem extractLoop_counts :
    ∀ (items : List ItemStep) (st : MongoStore) (c k : Nat),
      (extractLoop st c k items).2.1 + (extractLoop st c k items).2.2.1
        = c + k + okPrefixLen items
  | [], _, _, _ => rfl
  | Except.error e :: items, st, c, k => by
    simp [extractLoop, okPrefixLen, List.takeWhile, itemIsError]
  | Except.ok record :: items, st, c, k => by
    have hok : okPrefixLen (Except.ok record :: items) = okPrefixLen items + 1 := by
      simp [okPrefixLen, List.takeWhile, itemIsError]
    rw [hok]
    simp only [extractLoop]
    by_cases hr : (st.upsert_raw record).1 = true
    · simp only [hr, if_true, extractLoop_counts items]
      omega
    · simp only [Bool.not_eq_true] at hr
      simp only [hr, Bool.false_eq_true, if_false, extractLoop_counts items]
      omega

theorem runAdapter_failures (st : MongoStore) (m : CollectorMetrics)
    (run : AdapterRun) :
    (runAdapter st m run).2.failures
      = m.failures + (if run.fails then 1 else 0) := by
  cases run with
  | setupFailure e => simp [runAdapter, AdapterRun.fails]
  | extraction items =>
    have herr := extractLoop_error_eq_any items st m.items_collected m.items_skipped
    simp only [runAdapter, AdapterRun.fails]
    rcases hmatch : (extractLoop st m.items_collected m.items_skipped items).2.2.2 with _ | e
    · rw [hmatch] at herr
      simp [← herr]
    · rw [hmatch] at herr
      simp [← herr]

theorem runAdapter_counts (st : MongoStore) (m : CollectorMetrics)
    (run : AdapterRun) :
    (runAdapter st m run).2.items_collected + (runAdapter st m run).2.items_skipped
      = m.items_collected + m.items_skipped + run.okItems := by
  cases run with
  | setupFailure e => simp [runAdapter, AdapterRun.okItems]
  | extraction items =>
    have hc := extractLoop_counts items st m.items_collected m.items_skipped
    simp only [runAdapter, AdapterRun.okItems]
    rcases hmatch : (extractLoop st m.items_collected m.items_skipped items).2.2.2 with _ | e
    · simpa [hmatch] using hc
    · simpa [hmatch] using hc

theorem runAdapter_times (st : MongoStore) (m : CollectorMetrics)
    (run : AdapterRun) :
    (runAdapter st m run).2.start_time = m.start_time
      ∧ (runAdapter st m run).2.end_time = m.end_time := by
  cases run with
  | setupFailure e => exact ⟨rfl, rfl⟩
  | extraction items =>
    simp only [runAdapter]
    rcases (extractLoop st m.items_collected m.items_skipped items).2.2.2 with _ | e
    · exact ⟨rfl, rfl⟩
    · exact ⟨rfl, rfl⟩

theorem runAdapter_foldl (runs : List AdapterRun) :
    ∀ (st : MongoStore) (m : CollectorMetrics),
      ((runs.foldl (fun p r => runAdapter p.1 p.2 r) (st, m)).2.failures
          = m.failures + (runs.filter AdapterRun.fails).length)
        ∧ ((runs.foldl (fun p r => runAdapter p.1 p.2 r) (st, m)).2.items_collected
            + (runs.foldl (fun p r => runAdapter p.1 p.2 r) (st, m)).2.items_skipped
          = m.items_collected + m.items_skipped + (runs.map AdapterRun.okItems).sum)
        ∧ ((runs.foldl (fun p r => runAdapter p.1 p.2 r) (st, m)).2.start_time
          = m.start_time)
        ∧ ((runs.foldl (fun p r => runAdapter p.1 p.2 r) (st, m)).2.end_time
          = m.end_time) := by
  induction runs with
  | nil => intro st m; simp
  | cons run rest ih =>
    intro st m
    rcases hstep : runAdapter st m run with ⟨st', m'⟩
    have hf := runAdapter_failures st m run
    have hc := runAdapter_counts st m run
    have ht := runAdapter_times st m run
    rw [hstep] at hf hc ht
    have := ih st' m'
    simp only [List.foldl_cons, hstep]
    refine ⟨?_, ?_, ?_, ?_⟩
    · rw [this.1, hf, List.filter]
      cases hfl : run.fails
      · simp
      · simp
        omega
    · rw [this.2.1, hc]
      simp
      omega
    · rw [this.2.2.1, ht.1]
    · rw [this.2.2.2, ht.2]

/-! ### A concrete collision-free digest for witnesses

SHA-256 is assumed collision-free by the design; witnesses instantiate the
abstract `digest` parameter with an encoding that is injective outright. -/

instance : Encodable Char :=
  Encodable.ofLeftInverse Char.toNat Char.ofNat Char.ofNat_toNat

instance : Encodable String :=
  Encodable.ofLeftInverse String.data String.mk (fun _ => rfl)

/-- Injective stand-in for `data ↦ sha256(str(data)).hexdigest()`. -/
def witnessDigest (l : List (String × String)) : String :=
  String.mk (List.replicate (Encodable.encode l) 'h')

theorem witnessDigest_injective : Function.Injective witnessDigest := by
  intro a b h
  have hlen : (List.replicate (Encodable.encode a) 'h').length
      = (List.replicate (Encodable.encode b) 'h').length :=
    congrArg List.length (congrArg String.data h)
  simp only [List.length_replicate] at hlen
  exact Encodable.encode_injective hlen

/-! ### Retry-loop lemmas -/

theorem waitExp_le_cap (base : ℚ) (k : Nat) : waitExp base k ≤ 30 := by
  unfold waitExp
  refine max_le (by norm_num) ?_
  exact le_trans (min_le_right _ _) (by norm_num)

theorem waitExp_eq_of_one_le (base : ℚ) (k : Nat) (hb : 1 ≤ base) :
    waitExp base k = min (base * 2 ^ (k - 1)) 30 := by
  unfold waitExp
  refine max_eq_right (le_min ?_ (by norm_num))
  calc (1 : ℚ) = 1 * 1 := by norm_num
  _ ≤ base * 2 ^ (k - 1) :=
      mul_le_mul hb (one_le_pow₀ (by norm_num)) (by norm_num) (le_trans (by norm_num) hb)

theorem waitExp_one (base : ℚ) (hb : 1 ≤ base) (hcap : base ≤ 30) :
    waitExp base 1 = base := by
  rw [waitExp_eq_of_one_le base 1 hb]
  simp [min_eq_left hcap]

theorem retryGo_attempts_le (op : Nat → Except String Unit) (base : ℚ)
    (n : Nat) : ∀ k, k ≤ n → (retryGo op base n k).2.1 ≤ n - k + 1 := by
  suffices h : ∀ d k, n - k = d → k ≤ n → (retryGo op base n k).2.1 ≤ n - k + 1 by
    exact fun k hk => h (n - k) k rfl hk
  intro d
  induction d with
  | zero =>
    intro k hi hk
    have hnk : n = k := by omega
    unfold retryGo
    cases op k
    · simp [dif_pos (le_of_eq hnk)]
    · simp
  | succ d ih =>
    intro k hi hk
    unfold retryGo
    split
    · show 1 ≤ n - k + 1
      omega
    · rw [dif_neg (show ¬ n ≤ k by omega)]
      have hrec := ih (k + 1) (by omega) (by omega)
      show (retryGo op base n (k + 1)).2.1 + 1 ≤ n - k + 1
      omega

theorem retryGo_all_fail (op : Nat → Except String Unit) (errs : Nat → String)
    (base : ℚ) (n : Nat) (hfail : ∀ j, j ≤ n → op j = Except.error (errs j)) :
    ∀ k, 1 ≤ k → k ≤ n →
      retryGo op base n k
        = (Except.error (errs n), n - k + 1,
           (List.range (n - k)).map fun i => waitExp base (k + i)) := by
  suffices h : ∀ d k, n - k = d → 1 ≤ k → k ≤ n →
      retryGo op base n k
        = (Except.error (errs n), n - k + 1,
           (List.range (n - k)).map fun i => waitExp base (k + i)) by
    exact fun k hk1 hkn => h (n - k) k rfl hk1 hkn
  intro d
  induction d with
  | zero =>
    intro k hi hk1 hkn
    have hnk : n = k := by omega
    unfold retryGo
    rw [hfail k hkn]
    simp [dif_pos (le_of_eq hnk), hnk, hi]
  | succ d ih =>
    intro k hi hk1 hkn
    unfold retryGo
    rw [hfail k hkn]
    simp only
    rw [dif_neg (by omega)]
    have hd : n - (k + 1) = d := by omega
    rw [ih (k + 1) hd (by omega) (by omega)]
    simp only [Prod.mk.injEq, true_and]
    constructor
    · omega
    · have hrange : n - k = (n - (k + 1)) + 1 := by omega
      rw [hrange, List.range_succ_eq_map]
      simp only [List.map_cons, List.map_map]
      refine congrArg₂ List.cons (by simp) ?_
      refine List.map_congr_left fun i _ => ?_
      show waitExp base (k + 1 + i) = waitExp base (k + (i + 1))
      exact congrArg (waitExp base) (by omega)

theorem navigateWithRetry_first_ok (op : Nat → Except String Unit)
    (h : op 1 = Except.ok ()) (base : ℚ) (n : Nat) :
    navigateWithRetry op base n = (Except.ok (), 1, []) := by
  unfold navigateWithRetry retryGo
  rw [h]

/-! ### Upsert behavior lemmas -/

theorem upsert_raw_unchanged (st : MongoStore) (r e : RawRecord)
    (he : lookupKey st.raw (r.source_name, r.source_id) = some e)
    (hh : e.content_hash = r.content_hash) : st.upsert_raw r = (false, st) := by
  simp only [MongoStore.upsert_raw, he, hh, if_true]

theorem upsert_raw_written_of_some (st : MongoStore) (r e : RawRecord)
    (he : lookupKey st.raw (r.source_name, r.source_id) = some e)
    (hh : ¬ e.content_hash = r.content_hash) :
    st.upsert_raw r
      = (true, { st with raw := setKey st.raw (r.source_name, r.source_id) r }) := by
  simp only [MongoStore.upsert_raw, he, hh, if_false]

theorem upsert_raw_written_of_none (st : MongoStore) (r : RawRecord)
    (he : lookupKey st.raw (r.source_name, r.source_id) = none) :
    st.upsert_raw r
      = (true, { st with raw := setKey st.raw (r.source_name, r.source_id) r }) := by
  simp only [MongoStore.upsert_raw, he]

theorem upsert_canonical_unchanged (st : MongoStore) (r e : CanonicalRecord)
    (now : Nat) (he : lookupKey st.canonical r.record_id = some e)
    (hh : e.content_hash = r.content_hash) :
    st.upsert_canonical r now = (false, st) := by
  simp only [MongoStore.upsert_canonical, he, hh, if_true]

theorem upsert_canonical_written_of_some (st : MongoStore) (r e : CanonicalRecord)
    (now : Nat) (he : lookupKey st.canonical r.record_id = some e)
    (hh : ¬ e.content_hash = r.content_hash) :
    st.upsert_canonical r now = (true, { st with canonical := setKey st.canonical r.record_id { r with version := e.version + 1, updated_at := now } }) := by
  simp only [MongoStore.upsert_canonical, he, hh, if_false]

theorem upsert_canonical_written_of_none (st : MongoStore) (r : CanonicalRecord)
    (now : Nat) (he : lookupKey st.canonical r.record_id = none) :
    st.upsert_canonical r now = (true, { st with canonical := setKey st.canonical r.record_id { r with version := 1, updated_at := now } }) := by
  simp only [MongoStore.upsert_canonical, he]

theorem mkRawRecord_source_name (digest : List (String × String) → String)
    (sid sn url : String) (t : Nat) (ext : List (String × String)) :
    (mkRawRecord digest sid sn url t ext).source_name = sn := by
  simp [mkRawRecord, RawRecord.compute_content_hash]

theorem mkRawRecord_source_id (digest : List (String × String) → String)
    (sid sn url : String) (t : Nat) (ext : List (String × String)) :
    (mkRawRecord digest sid sn url t ext).source_id = sid := by
  simp [mkRawRecord, RawRecord.compute_content_hash]

/-! ## Claims -/

/-- C1: for every raw record, `upsert_raw` looks the existing document up by
the natural key `(source_name, source_id)`; if a document exists whose
`content_hash` equals the record's, it performs no write and returns `false`
(unchanged); otherwise it replace-upserts the record under its key, leaving
every other key untouched, and returns `true` (written).  Two successive
calls with identical `extracted` payloads (hence identical derived hashes)
for the same key on a key-free store produce exactly one write: the first
reports written, the second reports unchanged and leaves the store as it
was. -/
theorem upsert_raw_dedup_idempotent (st : MongoStore) (r : RawRecord) :
    (∀ e, lookupKey st.raw (r.source_name, r.source_id) = some e →
        e.content_hash = r.content_hash → st.upsert_raw r = (false, st))
    ∧ (∀ e, lookupKey st.raw (r.source_name, r.source_id) = some e →
        ¬ e.content_hash = r.content_hash →
        (st.upsert_raw r).1 = true
          ∧ lookupKey (st.upsert_raw r).2.raw (r.source_name, r.source_id) = some r
          ∧ ∀ k, ¬ k = (r.source_name, r.source_id) →
              lookupKey (st.upsert_raw r).2.raw k = lookupKey st.raw k)
    ∧ (lookupKey st.raw (r.source_name, r.source_id) = none →
        (st.upsert_raw r).1 = true
          ∧ lookupKey (st.upsert_raw r).2.raw (r.source_name, r.source_id) = some r
          ∧ ∀ k, ¬ k = (r.source_name, r.source_id) →
              lookupKey (st.upsert_raw r).2.raw k = lookupKey st.raw k)
    ∧ (∀ (digest : List (String × String) → String) sid sn url₁ url₂ t₁ t₂ ext,
        lookupKey st.raw (sn, sid) = none →
        (st.upsert_raw (mkRawRecord digest sid sn url₁ t₁ ext)).1 = true
          ∧ (st.upsert_raw (mkRawRecord digest sid sn url₁ t₁ ext)).2.upsert_raw
              (mkRawRecord digest sid sn url₂ t₂ ext)
            = (false, (st.upsert_raw (mkRawRecord digest sid sn url₁ t₁ ext)).2)) := by
  refine ⟨?_, ?_, ?_, ?_⟩
  · intro e he hh
    exact upsert_raw_unchanged st r e he hh
  · intro e he hh
    rw [upsert_raw_written_of_some st r e he hh]
    exact ⟨rfl, lookupKey_setKey_self _ _ _, fun k hk => lookupKey_setKey_other _ _ _ _ hk⟩
  · intro he
    rw [upsert_raw_written_of_none st r he]
    exact ⟨rfl, lookupKey_setKey_self _ _ _, fun k hk => lookupKey_setKey_other _ _ _ _ hk⟩
  · intro digest sid sn url₁ url₂ t₁ t₂ ext he
    have hkey₁ : ((mkRawRecord digest sid sn url₁ t₁ ext).source_name,
        (mkRawRecord digest sid sn url₁ t₁ ext).source_id) = (sn, sid) := by
      simp [mkRawRecord_source_name, mkRawRecord_source_id]
    have hkey₂ : ((mkRawRecord digest sid sn url₂ t₂ ext).source_name,
        (mkRawRecord digest sid sn url₂ t₂ ext).source_id) = (sn, sid) := by
      simp [mkRawRecord_source_name, mkRawRecord_source_id]
    have h₁ := upsert_raw_written_of_none st (mkRawRecord digest sid sn url₁ t₁ ext)
      (hkey₁ ▸ he)
    refine ⟨by rw [h₁], ?_⟩
    have hlook : lookupKey (st.upsert_raw (mkRawRecord digest sid sn url₁ t₁ ext)).2.raw
        ((mkRawRecord digest sid sn url₂ t₂ ext).source_name,
         (mkRawRecord digest sid sn url₂ t₂ ext).source_id)
        = some (mkRawRecord digest sid sn url₁ t₁ ext) := by
      rw [h₁, hkey₂]
      rw [← hkey₁]
      exact lookupKey_setKey_self _ _ _
    exact upsert_raw_unchanged _ _ _ hlook
      (by rw [mkRawRecord_content_hash, mkRawRecord_content_hash])

/-- C2: `upsert_canonical` is keyed by `record_id`: a stored document with a
matching `content_hash` means no write and the unchanged outcome; otherwise
the record is stored with `version = existing.version + 1` (or `1` when the
key is absent) and a refreshed `updated_at`, reporting written — so `version`
increments exactly when `content_hash` differs from the stored value. -/
theorem upsert_canonical_versioning (st : MongoStore) (r : CanonicalRecord)
    (now : Nat) :
    (∀ e, lookupKey st.canonical r.record_id = some e →
        e.content_hash = r.content_hash → st.upsert_canonical r now = (false, st))
    ∧ (∀ e, lookupKey st.canonical r.record_id = some e →
        ¬ e.content_hash = r.content_hash →
        (st.upsert_canonical r now).1 = true
          ∧ lookupKey (st.upsert_canonical r now).2.canonical r.record_id
              = some { r with version := e.version + 1, updated_at := now }
          ∧ ∀ k, ¬ k = r.record_id →
              lookupKey (st.upsert_canonical r now).2.canonical k
                = lookupKey st.canonical k)
    ∧ (lookupKey st.canonical r.record_id = none →
        (st.upsert_canonical r now).1 = true
          ∧ lookupKey (st.upsert_canonical r now).2.canonical r.record_id
              = some { r with version := 1, updated_at := now }
          ∧ ∀ k, ¬ k = r.record_id →
              lookupKey (st.upsert_canonical r now).2.canonical k
                = lookupKey st.canonical k) := by
  refine ⟨?_, ?_, ?_⟩
  · intro e he hh
    exact upsert_canonical_unchanged st r e now he hh
  · intro e he hh
    rw [upsert_canonical_written_of_some st r e now he hh]
    exact ⟨rfl, lookupKey_setKey_self _ _ _, fun k hk => lookupKey_setKey_other _ _ _ _ hk⟩
  · intro he
    rw [upsert_canonical_written_of_none st r now he]
    exact ⟨rfl, lookupKey_setKey_self _ _ _, fun k hk => lookupKey_setKey_other _ _ _ _ hk⟩

/-- C5: a derived `record_id` is the digest of `source_name ++ ":" ++
source_id` and depends on nothing else: two records sharing the key pair get
the same id whatever their contents, and the validator leaves every content
field (and the key fields) untouched. -/
theorem record_id_key_stability (digestS : String → String)
    (r₁ r₂ : CanonicalRecord) (h₁ : r₁.record_id = "") (h₂ : r₂.record_id = "")
    (hsn : r₁.source_name = r₂.source_name) (hsi : r₁.source_id = r₂.source_id) :
    (r₁.compute_record_id digestS).record_id
        = (r₂.compute_record_id digestS).record_id
    ∧ (r₁.compute_record_id digestS).record_id
        = digestS (r₁.source_name ++ ":" ++ r₁.source_id)
    ∧ (r₁.compute_record_id digestS).content_hash = r₁.content_hash
    ∧ (r₁.compute_record_id digestS).version = r₁.version
    ∧ (r₁.compute_record_id digestS).title = r₁.title
    ∧ (r₁.compute_record_id digestS).source_name = r₁.source_name
    ∧ (r₁.compute_record_id digestS).source_id = r₁.source_id := by
  unfold CanonicalRecord.compute_record_id
  rw [if_pos h₁, if_pos h₂]
  exact ⟨by rw [hsn, hsi], rfl, rfl, rfl, rfl, rfl, rfl⟩

/-- C10: the validators derive only into empty fields — a `RawRecord`
constructed with a non-empty `content_hash` keeps it verbatim, and a
`CanonicalRecord` constructed with a non-empty `record_id` keeps it verbatim,
even when the kept value differs from the digest of the record's data. -/
theorem hash_derivation_conditional (digest : List (String × String) → String)
    (digestS : String → String) (r : RawRecord) (c : CanonicalRecord)
    (hr : ¬ r.content_hash = "") (hc : ¬ c.record_id = "") :
    RawRecord.compute_content_hash digest r = r
      ∧ CanonicalRecord.compute_record_id digestS c = c := by
  constructor
  · unfold RawRecord.compute_content_hash
    rw [if_neg hr]
  · unfold CanonicalRecord.compute_record_id
    rw [if_neg hc]

/-! ### Concrete fixtures for witnesses and counterexamples -/

/-- A raw document already in the store. -/
def rawStored : RawRecord :=
  { source_id := "X1", source_name := "demo", source_url := "https://example.com/X1",
    extracted := [("title", "Road Repair")], content_hash := "h0" }

/-- Same natural key and hash as `rawStored`, different url. -/
def rawSameHash : RawRecord :=
  { source_id := "X1", source_name := "demo", source_url := "https://example.com/X1b",
    extracted := [("title", "Road Repair")], content_hash := "h0" }

/-- Same natural key as `rawStored`, different hash. -/
def rawNewHash : RawRecord :=
  { source_id := "X1", source_name := "demo", source_url := "https://example.com/X1",
    extracted := [("title", "Road Repair II")], content_hash := "h1" }

/-- A one-document raw store. -/
def demoStore : MongoStore :=
  { raw := [(("demo", "X1"), rawStored)], canonical := [] }

/-- A canonical document already in the store. -/
def canonStored : CanonicalRecord :=
  { record_id := "rid", source_name := "demo", source_id := "X1",
    source_url := "u", title := "Road Repair", content_hash := "c0", version := 1 }

/-- Same `record_id` and `content_hash` as `canonStored`. -/
def canonSameHash : CanonicalRecord :=
  { record_id := "rid", source_name := "demo", source_id := "X1",
    source_url := "u", title := "Road Repair", content_hash := "c0", version := 1 }

/-- Same `record_id` as `canonStored`, different hash. -/
def canonNewHash : CanonicalRecord :=
  { record_id := "rid", source_name := "demo", source_id := "X1",
    source_url := "u", title := "Road Repair II", content_hash := "c1", version := 1 }

/-- A one-document canonical store. -/
def demoCanonStore : MongoStore :=
  { raw := [], canonical := [("rid", canonStored)] }

/-- Witness for C1: at the concrete store, an equal-hash upsert is a no-op
reporting unchanged, a differing-hash upsert writes, and the two-call
idempotence scenario performs exactly one write. -/
theorem upsert_raw_dedup_idempotent_witness :
    demoStore.upsert_raw rawSameHash = (false, demoStore)
    ∧ (demoStore.upsert_raw rawNewHash).1 = true
    ∧ lookupKey (demoStore.upsert_raw rawNewHash).2.raw ("demo", "X1")
        = some rawNewHash
    ∧ (demoStore.upsert_raw (mkRawRecord (fun _ => "dig") "X2" "demo" "u1" 1
        [("title", "A")])).1 = true
    ∧ (demoStore.upsert_raw (mkRawRecord (fun _ => "dig") "X2" "demo" "u1" 1
        [("title", "A")])).2.upsert_raw
          (mkRawRecord (fun _ => "dig") "X2" "demo" "u2" 2 [("title", "A")])
      = (false, (demoStore.upsert_raw (mkRawRecord (fun _ => "dig") "X2" "demo"
          "u1" 1 [("title", "A")])).2) :=
  ⟨(upsert_raw_dedup_idempotent demoStore rawSameHash).1 rawStored (by decide)
      (by decide),
   ((upsert_raw_dedup_idempotent demoStore rawNewHash).2.1 rawStored (by decide)
      (by decide)).1,
   ((upsert_raw_dedup_idempotent demoStore rawNewHash).2.1 rawStored (by decide)
      (by decide)).2.1,
   ((upsert_raw_dedup_idempotent demoStore rawNewHash).2.2.2 (fun _ => "dig")
      "X2" "demo" "u1" "u2" 1 2 [("title", "A")] (by decide)).1,
   ((upsert_raw_dedup_idempotent demoStore rawNewHash).2.2.2 (fun _ => "dig")
      "X2" "demo" "u1" "u2" 1 2 [("title", "A")] (by decide)).2⟩

/-- Witness for C2: at the concrete canonical store, a matching hash skips,
a differing hash bumps the version to 2 and refreshes `updated_at`, and an
absent key stores version 1. -/
theorem upsert_canonical_versioning_witness :
    demoCanonStore.upsert_canonical canonSameHash 5 = (false, demoCanonStore)
    ∧ (demoCanonStore.upsert_canonical canonNewHash 5).1 = true
    ∧ lookupKey (demoCanonStore.upsert_canonical canonNewHash 5).2.canonical "rid"
        = some { canonNewHash with version := 2, updated_at := 5 }
    ∧ ((MongoStore.mk [] []).upsert_canonical canonNewHash 7).1 = true
    ∧ lookupKey ((MongoStore.mk [] []).upsert_canonical canonNewHash 7).2.canonical
        "rid" = some { canonNewHash with version := 1, updated_at := 7 } :=
  ⟨(upsert_canonical_versioning demoCanonStore canonSameHash 5).1 canonStored
      (by decide) (by decide),
   ((upsert_canonical_versioning demoCanonStore canonNewHash 5).2.1 canonStored
      (by decide) (by decide)).1,
   ((upsert_canonical_versioning demoCanonStore canonNewHash 5).2.1 canonStored
      (by decide) (by decide)).2.1,
   ((upsert_canonical_versioning (MongoStore.mk [] []) canonNewHash 7).2.2
      (by decide)).1,
   ((upsert_canonical_versioning (MongoStore.mk [] []) canonNewHash 7).2.2
      (by decide)).2.1⟩

/-- Two canonical records sharing a key but with different contents. -/
def canonBlankIdA : CanonicalRecord :=
  { record_id := "", source_name := "demo", source_id := "X1",
    source_url := "u1", title := "Road Repair", content_hash := "c0" }

/-- Same key as `canonBlankIdA`, different title/hash/url. -/
def canonBlankIdB : CanonicalRecord :=
  { record_id := "", source_name := "demo", source_id := "X1",
    source_url := "u2", title := "Bridge Repair", content_hash := "c9" }

/-- Witness for C5 at two concrete records with equal keys and different
contents. -/
theorem record_id_key_stability_witness :
    (canonBlankIdA.compute_record_id (fun s => String.append "D:" s)).record_id
        = (canonBlankIdB.compute_record_id (fun s => String.append "D:" s)).record_id
    ∧ (canonBlankIdA.compute_record_id (fun s => String.append "D:" s)).record_id
        = String.append "D:" (String.append (String.append "demo" ":") "X1")
    ∧ (canonBlankIdA.compute_record_id
        (fun s => String.append "D:" s)).content_hash = "c0" :=
  ⟨(record_id_key_stability (fun s => String.append "D:" s) canonBlankIdA
      canonBlankIdB rfl rfl rfl rfl).1,
   (record_id_key_stability (fun s => String.append "D:" s) canonBlankIdA
      canonBlankIdB rfl rfl rfl rfl).2.1,
   (record_id_key_stability (fun s => String.append "D:" s) canonBlankIdA
      canonBlankIdB rfl rfl rfl rfl).2.2.1⟩

/-- A raw record carrying a caller-supplied hash. -/
def rawPresetHash : RawRecord :=
  { source_id := "X1", source_name := "demo", source_url := "u",
    extracted := [("title", "Road Repair")], content_hash := "caller-hash" }

/-- A canonical record carrying a caller-supplied id that differs from any
digest of its key. -/
def canonPresetId : CanonicalRecord :=
  { record_id := "caller-id", source_name := "demo", source_id := "X1",
    source_url := "u", title := "T", content_hash := "c0" }

/-- Witness for C10: concrete records with non-empty caller-supplied
`content_hash`/`record_id` pass validation unchanged, although the digests
would derive different values. -/
theorem hash_derivation_conditional_witness :
    RawRecord.compute_content_hash (fun _ => "derived-hash") rawPresetHash
        = rawPresetHash
    ∧ CanonicalRecord.compute_record_id (fun _ => "derived-id") canonPresetId
        = canonPresetId :=
  ⟨(hash_derivation_conditional (fun _ => "derived-hash") (fun _ => "derived-id")
      rawPresetHash canonPresetId (by decide) (by decide)).1,
   (hash_derivation_conditional (fun _ => "derived-hash") (fun _ => "derived-id")
      rawPresetHash canonPresetId (by decide) (by decide)).2⟩

/-- C4: `content_hash` digests the key-sorted items: records whose
`extracted` mappings hold the same pairs in different insertion order hash
identically (for every digest function), and for a collision-free digest,
overwriting the value of one existing key with a different value changes the
hash. -/
theorem content_hash_sorted_deterministic
    (digest : List (String × String) → String)
    (sid₁ sn₁ url₁ : String) (t₁ : Nat) (sid₂ sn₂ url₂ : String) (t₂ : Nat)
    (e₁ e₂ : List (String × String)) (hperm : e₁.Perm e₂) :
    (mkRawRecord digest sid₁ sn₁ url₁ t₁ e₁).content_hash
        = (mkRawRecord digest sid₂ sn₂ url₂ t₂ e₂).content_hash
    ∧ (Function.Injective digest →
        ∀ k v old, (e₁.map Prod.fst).Nodup → (k, old) ∈ e₁ → ¬ v = old →
          ¬ (mkRawRecord digest sid₁ sn₁ url₁ t₁ (dictSet e₁ k v)).content_hash
              = (mkRawRecord digest sid₁ sn₁ url₁ t₁ e₁).content_hash) := by
  constructor
  · rw [mkRawRecord_content_hash, mkRawRecord_content_hash,
      pySortItems_perm_eq hperm]
  · intro hinj k v old hnd hmem hne heq
    rw [mkRawRecord_content_hash, mkRawRecord_content_hash] at heq
    have hsort : pySortItems (dictSet e₁ k v) = pySortItems e₁ := hinj heq
    have hv : (k, v) ∈ pySortItems (dictSet e₁ k v) :=
      (pySortItems_perm (dictSet e₁ k v)).mem_iff.mpr (mem_dictSet v hmem)
    rw [hsort] at hv
    have hv₁ : (k, v) ∈ e₁ := (pySortItems_perm e₁).mem_iff.mp hv
    exact hne (keys_nodup_val_eq hnd hv₁ hmem)

/-- Witness for C4: concrete permuted payloads hash identically under the
injective stand-in digest, and mutating the value at key `"a"` changes the
hash. -/
theorem content_hash_sorted_deterministic_witness :
    (mkRawRecord witnessDigest "i" "s" "u" 0
        [("b", "2"), ("a", "1")]).content_hash
      = (mkRawRecord witnessDigest "i" "s" "u" 0
          [("a", "1"), ("b", "2")]).content_hash
    ∧ ¬ (mkRawRecord witnessDigest "i" "s" "u" 0
          (dictSet [("b", "2"), ("a", "1")] "a" "9")).content_hash
        = (mkRawRecord witnessDigest "i" "s" "u" 0
            [("b", "2"), ("a", "1")]).content_hash :=
  ⟨(content_hash_sorted_deterministic witnessDigest "i" "s" "u" 0 "i" "s" "u" 0
      [("b", "2"), ("a", "1")] [("a", "1"), ("b", "2")] (by decide)).1,
   (content_hash_sorted_deterministic witnessDigest "i" "s" "u" 0 "i" "s" "u" 0
      [("b", "2"), ("a", "1")] [("a", "1"), ("b", "2")] (by decide)).2
     witnessDigest_injective "a" "9" "1" (by decide) (by decide) (by decide)⟩

theorem samRecord_source_id (digest : List (String × String) → String)
    (t : Nat) (opp : SamOpp) :
    (samRecord digest t opp).source_id = opp.noticeId := by
  simp [samRecord, mkRawRecord_source_id]

theorem nycRecord_source_id (digest : List (String × String) → String)
    (t : Nat) (row : NycRow) :
    (nycRecord digest t row).source_id = nycSourceId row := by
  simp [nycRecord, mkRawRecord_source_id]

theorem checkpointHit_some (c : String) (hc : ¬ c = "") (i : String) :
    checkpointHit (some c) i = decide (i = c) := by
  simp [checkpointHit, hc]

theorem samGovExtract_checkpoint (digest : List (String × String) → String)
    (t : Nat) (c : String) (hc : ¬ c = "") :
    ∀ feed : List SamOpp,
      (samGovExtract digest t (some c) feed).map RawRecord.source_id
        = List.takeWhile (fun i => decide ¬(i = c))
            ((samGovExtract digest t none feed).map RawRecord.source_id)
  | [] => rfl
  | opp :: feed => by
    have hnone : checkpointHit none opp.noticeId = false := rfl
    by_cases hit : opp.noticeId = c
    · have hhit : checkpointHit (some c) opp.noticeId = true := by
        rw [checkpointHit_some c hc, hit]
        simp
      simp only [samGovExtract, hhit, hnone, Bool.false_eq_true, if_false,
        if_true, List.map_cons, List.map_nil, List.takeWhile_cons,
        samRecord_source_id]
      simp [hit]
    · have hhit : checkpointHit (some c) opp.noticeId = false := by
        rw [checkpointHit_some c hc]
        simp [hit]
      simp only [samGovExtract, hhit, hnone, Bool.false_eq_true, if_false,
        List.map_cons, List.takeWhile_cons, samRecord_source_id]
      rw [if_pos (show (fun i => decide ¬(i = c)) opp.noticeId = true by
        simp [hit])]
      exact congrArg (List.cons opp.noticeId)
        (samGovExtract_checkpoint digest t c hc feed)

theorem nycExtract_checkpoint (digest : List (String × String) → String)
    (t : Nat) (c : String) (hc : ¬ c = "") :
    ∀ feed : List NycRow,
      (nycExtract digest t (some c) feed).map RawRecord.source_id
        = List.takeWhile (fun i => decide ¬(i = c))
            ((nycExtract digest t none feed).map RawRecord.source_id)
  | [] => rfl
  | row :: feed => by
    by_cases hskip : nycSourceId row = ""
    · simp only [nycExtract, hskip, if_true]
      exact nycExtract_checkpoint digest t c hc feed
    · have hnone : checkpointHit none (nycSourceId row) = false := rfl
      by_cases hit : nycSourceId row = c
      · have hhit : checkpointHit (some c) (nycSourceId row) = true := by
          rw [checkpointHit_some c hc, hit]
          simp
        simp only [nycExtract, hskip, Bool.false_eq_true, if_false, hhit,
          hnone, if_true, List.map_cons, List.map_nil, List.takeWhile_cons,
          nycRecord_source_id]
        simp [hit]
      · have hhit : checkpointHit (some c) (nycSourceId row) = false := by
          rw [checkpointHit_some c hc]
          simp [hit]
        simp only [nycExtract, hskip, hhit, hnone, Bool.false_eq_true,
          if_false, List.map_cons, List.takeWhile_cons, nycRecord_source_id]
        rw [if_pos (show (fun i => decide ¬(i = c)) (nycSourceId row) = true by
          simp [hit])]
        exact congrArg (List.cons (nycSourceId row))
          (nycExtract_checkpoint digest t c hc feed)

/-- C6 as frozen is refuted at the empty checkpoint id: Python's truthiness
test `if self.checkpoint and ...` disables the stop when the checkpoint is
the empty string, so a feed whose head id is `""` is yielded in full instead
of stopping before the first occurrence of `""`. -/
theorem checkpoint_empty_string_cx :
    ¬ ((samGovExtract (fun _ => "h") 0 (some "") [{ noticeId := "" }]).map
          RawRecord.source_id
        = List.takeWhile (fun i => decide ¬(i = ""))
            ((samGovExtract (fun _ => "h") 0 none [{ noticeId := "" }]).map
              RawRecord.source_id)) := by
  decide

/-- C6 (amended): for every non-empty checkpoint id `c`, each adapter yields
exactly the records preceding the first occurrence of `c` in the stream it
would yield without a checkpoint, then returns normally (the model is a total
function: hitting the checkpoint truncates the stream rather than raising).
An empty checkpoint string is treated like no checkpoint at all. -/
theorem checkpoint_prefix_convergence (digest : List (String × String) → String)
    (t : Nat) (c : String) (hc : ¬ c = "")
    (sam : List SamOpp) (nyc : List NycRow) :
    (samGovExtract digest t (some c) sam).map RawRecord.source_id
        = List.takeWhile (fun i => decide ¬(i = c))
            ((samGovExtract digest t none sam).map RawRecord.source_id)
    ∧ (nycExtract digest t (some c) nyc).map RawRecord.source_id
        = List.takeWhile (fun i => decide ¬(i = c))
            ((nycExtract digest t none nyc).map RawRecord.source_id) :=
  ⟨samGovExtract_checkpoint digest t c hc sam,
   nycExtract_checkpoint digest t c hc nyc⟩

/-- A five-element newest-first SAM.gov feed `d5 … d1`. -/
def samFeed5 : List SamOpp :=
  [{ noticeId := "d5" }, { noticeId := "d4" }, { noticeId := "d3" },
   { noticeId := "d2" }, { noticeId := "d1" }]

/-- A five-element newest-first NYC feed `d5 … d1`. -/
def nycFeed5 : List NycRow :=
  [{ request_id := "d5" }, { request_id := "d4" }, { request_id := "d3" },
   { request_id := "d2" }, { request_id := "d1" }]

/-- Witness for C6 (amended) at checkpoint `"d3"` over the spec's example
feed `[d5, d4, d3, d2, d1]`. -/
theorem checkpoint_prefix_convergence_witness :
    ¬ ("d3" : String) = ""
    ∧ ((samGovExtract (fun _ => "h") 0 (some "d3") samFeed5).map
          RawRecord.source_id
        = List.takeWhile (fun i => decide ¬(i = "d3"))
            ((samGovExtract (fun _ => "h") 0 none samFeed5).map
              RawRecord.source_id)
      ∧ (nycExtract (fun _ => "h") 0 (some "d3") nycFeed5).map
          RawRecord.source_id
        = List.takeWhile (fun i => decide ¬(i = "d3"))
            ((nycExtract (fun _ => "h") 0 none nycFeed5).map
              RawRecord.source_id)) :=
  ⟨by decide,
   checkpoint_prefix_convergence (fun _ => "h") 0 "d3" (by decide)
     samFeed5 nycFeed5⟩

theorem extractLoop_all_ok_none (pre : List ItemStep)
    (hpre : ∀ x ∈ pre, itemIsError x = false) (st : MongoStore) (c k : Nat) :
    (extractLoop st c k pre).2.2.2 = none := by
  have hany : pre.any itemIsError = false := by
    rw [List.any_eq_false]
    intro x hx
    simp [hpre x hx]
  have h := extractLoop_error_eq_any pre st c k
  rw [hany] at h
  rcases hres : (extractLoop st c k pre).2.2.2 with _ | e
  · rfl
  · rw [hres] at h
    simp at h

theorem extractLoop_error_cut (st : MongoStore) (c k : Nat)
    (pre post : List ItemStep) (e : String)
    (hpre : ∀ x ∈ pre, itemIsError x = false) :
    extractLoop st c k (pre ++ Except.error e :: post)
      = ((extractLoop st c k pre).1, (extractLoop st c k pre).2.1,
         (extractLoop st c k pre).2.2.1, some e) := by
  have hnone := extractLoop_all_ok_none pre hpre st c k
  rw [extractLoop_append]
  rcases hres : extractLoop st c k pre with ⟨st', c', k', err⟩
  rw [hres] at hnone
  simp only at hnone
  subst hnone
  rfl

/-- A second raw record, keyed `("demo", "X2")`, delivered after the error in
the C3 stream. -/
def rawNewHash2 : RawRecord :=
  { source_id := "X2", source_name := "demo", source_url := "u",
    extracted := [("title", "B")], content_hash := "h2" }

/-- C3 as frozen is refuted at a concrete three-item stream: the second item
raises, and the code neither keeps the failure count at zero nor processes
the third item — the run aborts at the error (the loop body has no per-item
handler; the exception reaches the run-level `except`). -/
theorem extraction_item_error_aborts_cx :
    ¬ ((runAdapter (MongoStore.mk [] []) {}
          (AdapterRun.extraction [Except.ok rawStored, Except.error "boom",
            Except.ok rawNewHash2])).2.failures = 0
        ∧ lookupKey (runAdapter (MongoStore.mk [] []) {}
            (AdapterRun.extraction [Except.ok rawStored, Except.error "boom",
              Except.ok rawNewHash2])).1.raw ("demo", "X2")
          = some rawNewHash2) := by
  decide

/-- C3 (amended): an error raised while producing or persisting an item is
caught only by the run-level handler: the run keeps the effects of the items
before the first error, never processes any later item of the same run, and
is recorded as exactly one failure; an error-free stream leaves the failure
count untouched.  (The checkpoint signal terminates the stream normally —
modelled as the end of the stream — with no failure.) -/
theorem extraction_item_error_aborts_run (st : MongoStore)
    (m : CollectorMetrics) (pre post : List ItemStep) (e : String)
    (hpre : ∀ x ∈ pre, itemIsError x = false) :
    runAdapter st m (AdapterRun.extraction (pre ++ Except.error e :: post))
        = runAdapter st m (AdapterRun.extraction (pre ++ [Except.error e]))
    ∧ (runAdapter st m
        (AdapterRun.extraction (pre ++ Except.error e :: post))).1
        = (runAdapter st m (AdapterRun.extraction pre)).1
    ∧ (runAdapter st m
        (AdapterRun.extraction (pre ++ Except.error e :: post))).2.items_collected
        = (runAdapter st m (AdapterRun.extraction pre)).2.items_collected
    ∧ (runAdapter st m
        (AdapterRun.extraction (pre ++ Except.error e :: post))).2.items_skipped
        = (runAdapter st m (AdapterRun.extraction pre)).2.items_skipped
    ∧ (runAdapter st m
        (AdapterRun.extraction (pre ++ Except.error e :: post))).2.failures
        = m.failures + 1
    ∧ (runAdapter st m (AdapterRun.extraction pre)).2.failures = m.failures := by
  have hcut := extractLoop_error_cut st m.items_collected m.items_skipped
    pre post e hpre
  have hcut' := extractLoop_error_cut st m.items_collected m.items_skipped
    pre [] e hpre
  have hnone := extractLoop_all_ok_none pre hpre st m.items_collected
    m.items_skipped
  have hone : pre ++ [Except.error e] = pre ++ Except.error e :: [] := rfl
  refine ⟨?_, ?_, ?_, ?_, ?_, ?_⟩
  · simp only [runAdapter, hone, hcut, hcut']
  · simp only [runAdapter, hcut]
    rcases hres : extractLoop st m.items_collected m.items_skipped pre
      with ⟨st', c', k', err⟩
    rw [hres] at hnone
    simp only at hnone
    subst hnone
    rfl
  · simp only [runAdapter, hcut]
    rcases hres : extractLoop st m.items_collected m.items_skipped pre
      with ⟨st', c', k', err⟩
    rw [hres] at hnone
    simp only at hnone
    subst hnone
    rfl
  · simp only [runAdapter, hcut]
    rcases hres : extractLoop st m.items_collected m.items_skipped pre
      with ⟨st', c', k', err⟩
    rw [hres] at hnone
    simp only at hnone
    subst hnone
    rfl
  · simp only [runAdapter, hcut]
  · simp only [runAdapter]
    rcases hres : extractLoop st m.items_collected m.items_skipped pre
      with ⟨st', c', k', err⟩
    rw [hres] at hnone
    simp only at hnone
    subst hnone
    rfl

/-- Witness for C3 (amended) at the concrete three-item stream. -/
theorem extraction_item_error_aborts_run_witness :
    runAdapter (MongoStore.mk [] []) {}
        (AdapterRun.extraction [Except.ok rawStored, Except.error "boom",
          Except.ok rawNewHash2])
      = runAdapter (MongoStore.mk [] []) {}
          (AdapterRun.extraction [Except.ok rawStored, Except.error "boom"])
    ∧ (runAdapter (MongoStore.mk [] []) {}
        (AdapterRun.extraction [Except.ok rawStored, Except.error "boom",
          Except.ok rawNewHash2])).2.failures = 1 :=
  ⟨(extraction_item_error_aborts_run (MongoStore.mk [] []) {}
      [Except.ok rawStored] [Except.ok rawNewHash2] "boom" (by decide)).1,
   (extraction_item_error_aborts_run (MongoStore.mk [] []) {}
      [Except.ok rawStored] [Except.ok rawNewHash2] "boom" (by decide)).2.2.2.2.1⟩

theorem orchestratorRun_failures (st : MongoStore) (runs : List AdapterRun)
    (t0 t1 : Nat) :
    (orchestratorRun st runs t0 t1).2.failures
      = (runs.filter AdapterRun.fails).length := by
  have h := runAdapter_foldl runs st { start_time := t0 }
  simp only [orchestratorRun, CollectorMetrics.summary]
  simpa using h.1

theorem orchestratorRun_counts (st : MongoStore) (runs : List AdapterRun)
    (t0 t1 : Nat) :
    (orchestratorRun st runs t0 t1).2.items_collected
        + (orchestratorRun st runs t0 t1).2.items_skipped
      = (runs.map AdapterRun.okItems).sum := by
  have h := runAdapter_foldl runs st { start_time := t0 }
  simp only [orchestratorRun, CollectorMetrics.summary]
  simpa using h.2.1

theorem orchestratorRun_elapsed (st : MongoStore) (runs : List AdapterRun)
    (t0 t1 : Nat) :
    (orchestratorRun st runs t0 t1).2.elapsed_s = t1 - t0 := by
  have h := runAdapter_foldl runs st { start_time := t0 }
  simp only [orchestratorRun, CollectorMetrics.summary]
  simpa using congrArg (t1 - ·) h.2.2.1

/-- C7: the orchestrator absorbs every run's outcome into one summary:
`failures` counts exactly the runs that reached the run-level handler,
`elapsed_s` spans the whole batch, and `items_collected + items_skipped`
accounts one-for-one for the items processed by all runs; inserting a failing
run anywhere raises the failure count by exactly one and leaves the other
runs' item accounting unchanged — a run's failure is recorded and the
orchestrator proceeds (it is a total function; it never re-raises). -/
theorem orchestrator_aggregate_isolation (st : MongoStore)
    (runs : List AdapterRun) (t0 t1 : Nat) :
    (orchestratorRun st runs t0 t1).2.failures
        = (runs.filter AdapterRun.fails).length
    ∧ (orchestratorRun st runs t0 t1).2.elapsed_s = t1 - t0
    ∧ (orchestratorRun st runs t0 t1).2.items_collected
        + (orchestratorRun st runs t0 t1).2.items_skipped
        = (runs.map AdapterRun.okItems).sum
    ∧ ∀ (e : String) (pre post : List AdapterRun),
        (orchestratorRun st (pre ++ AdapterRun.setupFailure e :: post)
            t0 t1).2.failures
          = (orchestratorRun st (pre ++ post) t0 t1).2.failures + 1
        ∧ (orchestratorRun st (pre ++ AdapterRun.setupFailure e :: post)
              t0 t1).2.items_collected
            + (orchestratorRun st (pre ++ AdapterRun.setupFailure e :: post)
                t0 t1).2.items_skipped
          = (orchestratorRun st (pre ++ post) t0 t1).2.items_collected
            + (orchestratorRun st (pre ++ post) t0 t1).2.items_skipped := by
  refine ⟨orchestratorRun_failures st runs t0 t1,
    orchestratorRun_elapsed st runs t0 t1,
    orchestratorRun_counts st runs t0 t1, ?_⟩
  intro e pre post
  constructor
  · rw [orchestratorRun_failures, orchestratorRun_failures]
    simp [List.filter_append, AdapterRun.fails]
    omega
  · rw [orchestratorRun_counts, orchestratorRun_counts]
    simp [List.map_append, AdapterRun.okItems]

theorem retryGo_zero_attempts (op : Nat → Except String Unit) (base : ℚ) :
    (retryGo op base 0 1).2.1 = 1 := by
  unfold retryGo
  split
  · rfl
  · rw [dif_pos (Nat.zero_le 1)]

theorem retryGo_zero_fail (op : Nat → Except String Unit) (base : ℚ)
    (e : String) (h : op 1 = Except.error e) :
    retryGo op base 0 1 = (Except.error e, 1, []) := by
  unfold retryGo
  rw [h]
  exact rfl

theorem waitExp_one_cap (base : ℚ) (h : 30 ≤ base) : waitExp base 1 = 30 := by
  unfold waitExp
  norm_num
  rw [min_eq_right h]
  exact max_eq_right (by norm_num)

/-- C8 as frozen is refuted at configurations the surface allows
(`max_retries` constrained only to `≥ 0`, `retry_backoff_base` only to
`≥ 1.0`): with `max_retries = 0` the wrapped navigation still makes one
attempt — tenacity runs the first attempt before consulting
`stop_after_attempt` — which is more than "up to 0 attempts"; and with
`retry_backoff_base = 60` the first wait is the 30-second cap, not
`retry_backoff_base`. -/
theorem navigate_retry_policy_cx :
    ¬ ((navigateWithRetry (fun _ => Except.error "down") 2 0).2.1 ≤ 0)
    ∧ ¬ (waitExp 60 1 = 60) := by
  constructor
  · intro hle
    have h : (retryGo (fun _ => Except.error "down") 2 0 1).2.1 = 1 :=
      retryGo_zero_attempts _ _
    unfold navigateWithRetry at hle
    rw [h] at hle
    omega
  · intro h
    rw [waitExp_one_cap 60 (by norm_num)] at h
    norm_num at h

/-- C8 (amended): the retry policy wraps only the initial navigation to a
source's start URL.  The loop makes at most `max 1 max_retries` attempts —
tenacity runs the first attempt before consulting `stop_after_attempt`, so
`max_retries = 0` still navigates once; when every attempt fails it makes
exactly `max 1 max_retries` attempts, sleeping `base * 2^(k-1)` clamped to
`[1, 30]` seconds between consecutive attempts — a schedule that starts at
`retry_backoff_base` when that is at most 30 and at the 30-second cap
otherwise — and re-raises the last error, which the caller absorbs as a
single failure scoped to that run.  A run whose first navigation attempt
succeeds is independent of the retry configuration, so per-item extraction
failures never pass through the combinator. -/
theorem navigate_retry_policy (op : Nat → Except String Unit)
    (errs : Nat → String) (base : ℚ) (n : Nat) :
    (navigateWithRetry op base n).2.1 ≤ max 1 n
    ∧ ((∀ j, j ≤ max 1 n → op j = Except.error (errs j)) →
        navigateWithRetry op base n
          = (Except.error (errs (max 1 n)), max 1 n,
             (List.range (max 1 n - 1)).map fun i => waitExp base (1 + i)))
    ∧ (1 ≤ base → base ≤ 30 → waitExp base 1 = base)
    ∧ (30 ≤ base → waitExp base 1 = 30)
    ∧ (∀ k, waitExp base k ≤ 30)
    ∧ (1 ≤ base → ∀ k, waitExp base k = min (base * 2 ^ (k - 1)) 30)
    ∧ (∀ (err : String) (st : MongoStore) (m : CollectorMetrics)
          (items : List ItemStep),
        (navigateWithRetry op base n).1 = Except.error err →
        runAdapterNav base n st m (NavWorld.mk op items)
          = (st, { m with failures := m.failures + 1 }))
    ∧ (op 1 = Except.ok () →
        ∀ (st : MongoStore) (m : CollectorMetrics) (items : List ItemStep)
          (base' : ℚ) (n' : Nat),
          runAdapterNav base n st m (NavWorld.mk op items)
              = runAdapterNav base' n' st m (NavWorld.mk op items)
            ∧ runAdapterNav base n st m (NavWorld.mk op items)
              = runAdapter st m (AdapterRun.extraction items)) := by
  refine ⟨?_, ?_, fun hb hcap => waitExp_one base hb hcap,
    fun hcap => waitExp_one_cap base hcap,
    fun k => waitExp_le_cap base k,
    fun hb k => waitExp_eq_of_one_le base k hb, ?_, ?_⟩
  · by_cases hn : 1 ≤ n
    · have h := retryGo_attempts_le op base n 1 hn
      have hmax : max 1 n = n := by omega
      unfold navigateWithRetry
      rw [hmax]
      omega
    · have hn0 : n = 0 := by omega
      subst hn0
      unfold navigateWithRetry
      rw [retryGo_zero_attempts op base]
      exact le_max_left 1 0
  · intro hfail
    by_cases hn : 1 ≤ n
    · have hmax : max 1 n = n := by omega
      rw [hmax] at hfail ⊢
      have h := retryGo_all_fail op errs base n hfail 1 (le_refl 1) hn
      unfold navigateWithRetry
      rw [h]
      have : n - 1 + 1 = n := by omega
      rw [this]
    · have hn0 : n = 0 := by omega
      subst hn0
      have hop : op 1 = Except.error (errs 1) := hfail 1 (by simp)
      unfold navigateWithRetry
      rw [retryGo_zero_fail op base (errs 1) hop]
      rfl
  · intro err st m items herr
    unfold runAdapterNav
    rw [herr]
  · intro hok st m items base' n'
    constructor
    · unfold runAdapterNav
      rw [navigateWithRetry_first_ok op hok base n,
        navigateWithRetry_first_ok op hok base' n']
    · unfold runAdapterNav
      rw [navigateWithRetry_first_ok op hok base n]

/-- Witness for C8 (amended) at `max_retries = 0` with
`retry_backoff_base = 60` (one attempt, cap-start backoff) and at
`max_retries = 3` with `retry_backoff_base = 2` (three attempts, backoff
starting at 2), plus the failure-scoping and retry-irrelevance parts. -/
theorem navigate_retry_policy_witness :
    (navigateWithRetry (fun j => Except.error (Nat.repr j)) 60 0).2.1 ≤ max 1 0
    ∧ navigateWithRetry (fun j => Except.error (Nat.repr j)) 60 0
        = (Except.error (Nat.repr (max 1 0)), max 1 0,
           (List.range (max 1 0 - 1)).map fun i => waitExp 60 (1 + i))
    ∧ navigateWithRetry (fun j => Except.error (Nat.repr j)) 2 3
        = (Except.error (Nat.repr (max 1 3)), max 1 3,
           (List.range (max 1 3 - 1)).map fun i => waitExp 2 (1 + i))
    ∧ waitExp 2 1 = 2
    ∧ waitExp 60 1 = 30
    ∧ runAdapterNav 2 3 (MongoStore.mk [] []) {}
          (NavWorld.mk (fun j => Except.error (Nat.repr j)) [])
        = (MongoStore.mk [] [], { failures := 1 })
    ∧ runAdapterNav 2 3 (MongoStore.mk [] []) {}
          (NavWorld.mk (fun _ => Except.ok ()) [Except.error "boom"])
        = runAdapterNav 9 5 (MongoStore.mk [] []) {}
            (NavWorld.mk (fun _ => Except.ok ()) [Except.error "boom"]) :=
  ⟨(navigate_retry_policy (fun j => Except.error (Nat.repr j))
      (fun j => Nat.repr j) 60 0).1,
   (navigate_retry_policy (fun j => Except.error (Nat.repr j))
      (fun j => Nat.repr j) 60 0).2.1 (fun j _ => rfl),
   (navigate_retry_policy (fun j => Except.error (Nat.repr j))
      (fun j => Nat.repr j) 2 3).2.1 (fun j _ => rfl),
   (navigate_retry_policy (fun j => Except.error (Nat.repr j))
      (fun j => Nat.repr j) 2 3).2.2.1 (by norm_num) (by norm_num),
   (navigate_retry_policy (fun j => Except.error (Nat.repr j))
      (fun j => Nat.repr j) 60 0).2.2.2.1 (by norm_num),
   (navigate_retry_policy (fun j => Except.error (Nat.repr j))
      (fun j => Nat.repr j) 2 3).2.2.2.2.2.2.1 (Nat.repr (max 1 3))
     (MongoStore.mk [] []) {} []
     (congrArg Prod.fst ((navigate_retry_policy (fun j => Except.error (Nat.repr j))
        (fun j => Nat.repr j) 2 3).2.1 (fun j _ => rfl))),
   ((navigate_retry_policy (fun _ => Except.ok ()) (fun j => Nat.repr j)
      2 3).2.2.2.2.2.2.2 rfl
     (MongoStore.mk [] []) {} [Except.error "boom"] 9 5).1⟩

/-- A third canonical record for the same key with yet another hash. -/
def canonNewHashB : CanonicalRecord :=
  { record_id := "rid", source_name := "demo", source_id := "X1",
    source_url := "u", title := "Road Repair III", content_hash := "c2",
    version := 1 }

/-- C9 as frozen is refuted by an explicit interleaving: two concurrent
`upsert_canonical` calls on key `"rid"` (stored version 1), each doing its
`find_one` before either `update_one`, leave the store in a state that
matches neither serial execution — the final version is 2 while both serial
orders give 3, so one version bump is lost. -/
theorem upsert_canonical_race_cx :
    (execSchedule demoCanonStore { record := canonNewHash, now := 7 }
          { record := canonNewHashB, now := 9 } [true, false, true, false]).1
        ≠ ((demoCanonStore.upsert_canonical canonNewHash 7).2.upsert_canonical
            canonNewHashB 9).2
    ∧ (execSchedule demoCanonStore { record := canonNewHash, now := 7 }
          { record := canonNewHashB, now := 9 } [true, false, true, false]).1
        ≠ ((demoCanonStore.upsert_canonical canonNewHashB 9).2.upsert_canonical
            canonNewHash 7).2
    ∧ (lookupKey (execSchedule demoCanonStore { record := canonNewHash, now := 7 }
          { record := canonNewHashB, now := 9 }
          [true, false, true, false]).1.canonical "rid").map
            CanonicalRecord.version = some 2
    ∧ (lookupKey ((demoCanonStore.upsert_canonical canonNewHash 7).2.upsert_canonical
          canonNewHashB 9).2.canonical "rid").map CanonicalRecord.version = some 3
    ∧ (lookupKey ((demoCanonStore.upsert_canonical canonNewHashB 9).2.upsert_canonical
          canonNewHash 7).2.canonical "rid").map CanonicalRecord.version = some 3 := by
  decide

/-- C9 (amended): `upsert_canonical` is an independent `find_one` followed by
a separate `update_one`, not an atomic unit.  Whenever both clients read the
same stored document before either writes (read-read-write-write), with all
three hashes pairwise distinct, the second writer overwrites the first: the
final document carries `version = stored.version + 1` and the losing write's
content is gone, whereas serial execution of the same two upserts ends at
`version = stored.version + 2`.  Duplicate documents cannot arise, since the
collection is keyed by the unique natural-key index. -/
theorem execSchedule_true_ready (st : MongoStore) (r : CanonicalRecord)
    (t : Nat) (b : UpsertClient) (rest : List Bool) :
    execSchedule st { record := r, now := t } b (true :: rest)
      = execSchedule st { record := r, now := t, phase := UpsertPhase.readDone (lookupKey st.canonical r.record_id) } b rest := rfl

theorem execSchedule_false_ready (st : MongoStore) (a : UpsertClient)
    (r : CanonicalRecord) (t : Nat) (rest : List Bool) :
    execSchedule st a { record := r, now := t } (false :: rest)
      = execSchedule st a { record := r, now := t, phase := UpsertPhase.readDone (lookupKey st.canonical r.record_id) } rest := rfl

theorem execSchedule_true_write (st : MongoStore) (r e : CanonicalRecord)
    (t : Nat) (hne : ¬ e.content_hash = r.content_hash) (b : UpsertClient)
    (rest : List Bool) :
    execSchedule st { record := r, now := t, phase := UpsertPhase.readDone (some e) } b (true :: rest)
      = execSchedule { st with canonical := setKey st.canonical r.record_id { r with version := e.version + 1, updated_at := t } } { record := r, now := t, phase := UpsertPhase.finished true } b rest := by
  have hred : upsertCanonicalStep st { record := r, now := t, phase := UpsertPhase.readDone (some e) } = (if e.content_hash = r.content_hash then (st, { record := r, now := t, phase := UpsertPhase.finished false }) else ({ st with canonical := setKey st.canonical r.record_id { r with version := e.version + 1, updated_at := t } }, { record := r, now := t, phase := UpsertPhase.finished true })) := rfl
  have h1 : execSchedule st { record := r, now := t, phase := UpsertPhase.readDone (some e) } b (true :: rest) = execSchedule (upsertCanonicalStep st { record := r, now := t, phase := UpsertPhase.readDone (some e) }).1 (upsertCanonicalStep st { record := r, now := t, phase := UpsertPhase.readDone (some e) }).2 b rest := rfl
  rw [h1, hred, if_neg hne]

theorem execSchedule_false_write (st : MongoStore) (a : UpsertClient)
    (r e : CanonicalRecord) (t : Nat) (hne : ¬ e.content_hash = r.content_hash)
    (rest : List Bool) :
    execSchedule st a { record := r, now := t, phase := UpsertPhase.readDone (some e) } (false :: rest)
      = execSchedule { st with canonical := setKey st.canonical r.record_id { r with version := e.version + 1, updated_at := t } } a { record := r, now := t, phase := UpsertPhase.finished true } rest := by
  have hred : upsertCanonicalStep st { record := r, now := t, phase := UpsertPhase.readDone (some e) } = (if e.content_hash = r.content_hash then (st, { record := r, now := t, phase := UpsertPhase.finished false }) else ({ st with canonical := setKey st.canonical r.record_id { r with version := e.version + 1, updated_at := t } }, { record := r, now := t, phase := UpsertPhase.finished true })) := rfl
  have h1 : execSchedule st a { record := r, now := t, phase := UpsertPhase.readDone (some e) } (false :: rest) = execSchedule (upsertCanonicalStep st { record := r, now := t, phase := UpsertPhase.readDone (some e) }).1 a (upsertCanonicalStep st { record := r, now := t, phase := UpsertPhase.readDone (some e) }).2 rest := rfl
  rw [h1, hred, if_neg hne]

/-- C9 (amended): `upsert_canonical` is an independent `find_one` followed by
a separate `update_one`, not an atomic unit.  Whenever both clients read the
same stored document before either writes (read-read-write-write), with all
three hashes pairwise distinct, the second writer overwrites the first: the
final document carries `version = stored.version + 1` and the losing write
is gone, whereas serial execution of the same two upserts ends at
`version = stored.version + 2`.  Duplicate documents cannot arise, since the
collection is keyed by the unique natural-key index. -/
theorem upsert_canonical_read_write_race (st : MongoStore)
    (e ra rb : CanonicalRecord) (ta tb : Nat) (rid : String)
    (hra : ra.record_id = rid) (hrb : rb.record_id = rid)
    (he : lookupKey st.canonical rid = some e)
    (hea : ¬ e.content_hash = ra.content_hash)
    (heb : ¬ e.content_hash = rb.content_hash)
    (hab : ¬ ra.content_hash = rb.content_hash) :
    lookupKey (execSchedule st { record := ra, now := ta }
        { record := rb, now := tb } [true, false, true, false]).1.canonical rid
      = some { rb with version := e.version + 1, updated_at := tb }
    ∧ lookupKey ((st.upsert_canonical ra ta).2.upsert_canonical
        rb tb).2.canonical rid
      = some { rb with version := e.version + 2, updated_at := tb } := by
  constructor
  · rw [execSchedule_true_ready, hra, he, execSchedule_false_ready, hrb, he,
      execSchedule_true_write st ra e ta hea,
      execSchedule_false_write _ _ rb e tb heb, hra, hrb]
    exact lookupKey_setKey_self _ _ _
  · have hea' : lookupKey st.canonical ra.record_id = some e := by
      rw [hra]
      exact he
    rw [upsert_canonical_written_of_some st ra e ta hea' hea]
    have hlook : lookupKey (setKey st.canonical ra.record_id { ra with version := e.version + 1, updated_at := ta }) rb.record_id = some { ra with version := e.version + 1, updated_at := ta } := by
      rw [hrb, ← hra]
      exact lookupKey_setKey_self _ _ _
    have hab' : ¬ ({ ra with version := e.version + 1, updated_at := ta } : CanonicalRecord).content_hash = rb.content_hash := hab
    rw [upsert_canonical_written_of_some _ rb { ra with version := e.version + 1, updated_at := ta } tb hlook hab']
    have hv : ({ ra with version := e.version + 1, updated_at := ta } : CanonicalRecord).version + 1 = e.version + 2 := rfl
    rw [hv, hrb]
    exact lookupKey_setKey_self _ _ _

/-- Witness for C9 (amended) at the concrete store and records. -/
theorem upsert_canonical_read_write_race_witness :
    lookupKey (execSchedule demoCanonStore { record := canonNewHash, now := 7 }
        { record := canonNewHashB, now := 9 } [true, false, true, false]).1.canonical
        "rid"
      = some { canonNewHashB with version := 2, updated_at := 9 }
    ∧ lookupKey ((demoCanonStore.upsert_canonical canonNewHash 7).2.upsert_canonical
        canonNewHashB 9).2.canonical "rid"
      = some { canonNewHashB with version := 3, updated_at := 9 } :=
  ⟨(upsert_canonical_read_write_race demoCanonStore canonStored canonNewHash
      canonNewHashB 7 9 "rid" rfl rfl (by decide) (by decide) (by decide)
      (by decide)).1,
   (upsert_canonical_read_write_race demoCanonStore canonStored canonNewHash
      canonNewHashB 7 9 "rid" rfl rfl (by decide) (by decide) (by decide)
      (by decide)).2⟩

end Collector
